import Mathlib

/-!
Verification of the bfrpg-data extraction pipeline.

This file gives a shallow embedding of the Python extraction scripts
(`extract_monsters.py`, `extract_monsters_core.py`, `split_monsters.py`,
`postprocess_tables.py`, `src/xml_utils.py`, `src/extract_supplement_spells.py`,
`src/create_foundry_monsters.py`) and proves properties of the embedded
functions.  Text is modelled as `String` (a wrapped `List Char`); Python
string/regex operations used by the scripts are implemented as executable
functions over `List Char` that mirror the CPython semantics of the exact
calls made by the source (non-overlapping left-to-right `str.replace`,
`str.strip`, `str.split`, and the concrete regular expressions appearing in
the code).
-/

namespace Bfrpg

/-- Characters treated as whitespace by Python `str.strip()` / `str.split()`
for the ASCII inputs handled by the pipeline. -/
def isPySpace (c : Char) : Bool :=
  c == ' ' || c == '\t' || c == '\n' || c == '\r' || c == '\x0b' || c == '\x0c'

/-- Python `str.strip()` on a character list: drop whitespace from both ends. -/
def pyStrip (l : List Char) : List Char :=
  ((l.dropWhile isPySpace).reverse.dropWhile isPySpace).reverse

/-- Python `str.strip()` on `String`. -/
def pyStripS (s : String) : String :=
  ⟨pyStrip s.data⟩

/-- Helper for `pyWords`: accumulate the current word while scanning. -/
def pyWordsAux : List Char → List Char → List (List Char)
  | [], acc => if acc.isEmpty then [] else [acc.reverse]
  | c :: rest, acc =>
    if isPySpace c then
      if acc.isEmpty then pyWordsAux rest [] else acc.reverse :: pyWordsAux rest []
    else pyWordsAux rest (c :: acc)

/-- Python `str.split()` with no argument: split on whitespace runs,
dropping empty fields. -/
def pyWords (l : List Char) : List (List Char) :=
  pyWordsAux l []

/-- Substring test on character lists (Python `needle in hay`). -/
def subList : List Char → List Char → Bool
  | needle, [] => needle.isEmpty
  | needle, c :: rest => needle.isPrefixOf (c :: rest) || subList needle rest

/-- Substring test on strings (Python `needle in hay`). -/
def subStr (needle hay : String) : Bool :=
  subList needle.data hay.data

/-- ASCII lower-casing of a string (Python `str.lower()` on the pipeline's
ASCII vocabulary). -/
def lowerS (s : String) : String :=
  ⟨s.data.map Char.toLower⟩

/-- ASCII upper-casing of a string (Python `str.upper()` on the pipeline's
ASCII vocabulary). -/
def upperS (s : String) : String :=
  ⟨s.data.map Char.toUpper⟩

/-- First pass of `MonsterExtractor._postprocess_title`:
Python `title.replace(",", ", ")`, inserting a space after every comma. -/
def addCommaSpace : List Char → List Char
  | [] => []
  | c :: rest => if c == ',' then ',' :: ' ' :: addCommaSpace rest
                 else c :: addCommaSpace rest

/-- Second pass of `MonsterExtractor._postprocess_title`:
Python `title.replace("(", " (")`, inserting a space before every paren. -/
def addParenSpace : List Char → List Char
  | [] => []
  | c :: rest => if c == '(' then ' ' :: '(' :: addParenSpace rest
                 else c :: addParenSpace rest

/-- Third pass of `MonsterExtractor._postprocess_title`:
Python `title.replace("  ", " ")`, a single left-to-right non-overlapping
replacement of space pairs by single spaces. -/
def collapsePairs : List Char → List Char
  | [] => []
  | [c] => [c]
  | c1 :: c2 :: rest =>
    if c1 == ' ' && c2 == ' ' then ' ' :: collapsePairs rest
    else c1 :: collapsePairs (c2 :: rest)

/-- Fusion of the first two passes of `_postprocess_title` (used only in
proofs; `addParenSpace (addCommaSpace l)` is shown equal to it). -/
def commaParenPasses : List Char → List Char
  | [] => []
  | c :: rest =>
    if c == ',' then ',' :: ' ' :: commaParenPasses rest
    else if c == '(' then ' ' :: '(' :: commaParenPasses rest
    else c :: commaParenPasses rest

/-- Embedding of `MonsterExtractor._postprocess_title` (extract_monsters.py,
lines 421-423): `title.replace(",", ", ").replace("(", " (").replace("  ", " ")`. -/
def postprocessTitle (s : String) : String :=
  ⟨collapsePairs (addParenSpace (addCommaSpace s.data))⟩

/-- Scanner for a double space somewhere in a character list. -/
def hasDD : List Char → Bool
  | c1 :: c2 :: rest => (c1 == ' ' && c2 == ' ') || hasDD (c2 :: rest)
  | _ => false

/-- Scanner for three consecutive spaces somewhere in a character list. -/
def hasTriple : List Char → Bool
  | c1 :: c2 :: c3 :: rest =>
    (c1 == ' ' && c2 == ' ' && c3 == ' ') || hasTriple (c2 :: c3 :: rest)
  | _ => false

/-- Scanner for the three-character pattern comma-space-paren. -/
def hasCSP : List Char → Bool
  | c1 :: c2 :: c3 :: rest =>
    (c1 == ',' && c2 == ' ' && c3 == '(') || hasCSP (c2 :: c3 :: rest)
  | _ => false

/-- Does the list start with a space? -/
def startsSp : List Char → Bool
  | c :: _ => c == ' '
  | _ => false

/-- Does the list start with two spaces? -/
def startsDD : List Char → Bool
  | c1 :: c2 :: _ => c1 == ' ' && c2 == ' '
  | _ => false

/-- Does the list start with a space followed by an opening paren? -/
def startsSpParen : List Char → Bool
  | c1 :: c2 :: _ => c1 == ' ' && c2 == '('
  | _ => false

/-- Does the list start with an opening paren? -/
def startsPar : List Char → Bool
  | c :: _ => c == '('
  | _ => false

/-! ### XML tree model and the pruning pre-pass (`src/xml_utils.py`) -/

/-- A `minidom` node as seen by `prune_empty_elements`: either a text node
or an element node carrying its list of attribute names and its children. -/
inductive XNode where
  | text (s : String)
  | elem (attrs : List String) (children : List XNode)

/-- The removal condition of `prune_empty_elements` (xml_utils.py lines
84-87): the element has no children and its attribute-name set is empty or
equal to the singleton set containing the style-identifier attribute. -/
def removableAttrs (attrs : List String) : Bool :=
  attrs.all (fun a => a == "text:style-name")

mutual

/-- Embedding of `prune_empty_elements` (xml_utils.py lines 77-88) acting on
a node: its children are pruned recursively, the node itself is never
removed. -/
def pruneNode : XNode → XNode
  | .text s => .text s
  | .elem attrs cs => .elem attrs (pruneChildren cs)

/-- The loop body of `prune_empty_elements`: each element child is pruned
recursively and then dropped when it has become empty and carries no
attribute other than `text:style-name`; text children are kept untouched. -/
def pruneChildren : List XNode → List XNode
  | [] => []
  | .text s :: rest => .text s :: pruneChildren rest
  | .elem attrs cs :: rest =>
    let cs' := pruneChildren cs
    if cs'.isEmpty && removableAttrs attrs then pruneChildren rest
    else .elem attrs cs' :: pruneChildren rest

end

/-- Is this node an empty element whose attributes are empty or style-only
(the kind of node the pruning pass removes)? -/
def isRemovable : XNode → Bool
  | .text _ => false
  | .elem attrs cs => cs.isEmpty && removableAttrs attrs

/-- The children of a node (a text node has none). -/
def childrenOf : XNode → List XNode
  | .text _ => []
  | .elem _ cs => cs

mutual

/-- No node of this tree (the root included) is removable. -/
def allClean : XNode → Bool
  | .text _ => true
  | .elem attrs cs => !(cs.isEmpty && removableAttrs attrs) && allCleanList cs

/-- Every tree in the list satisfies `allClean`. -/
def allCleanList : List XNode → Bool
  | [] => true
  | n :: rest => allClean n && allCleanList rest

end

/-! ### Python dict model (insertion-ordered association list) -/

/-- Python `d[k] = v`: overwrite in place when the key exists, else append. -/
def dictInsert {β : Type} : List (String × β) → String → β → List (String × β)
  | [], k, v => [(k, v)]
  | (k', v') :: rest, k, v =>
    if k' == k then (k, v) :: rest else (k', v') :: dictInsert rest k v

/-- The keys of a dict, in insertion order. -/
def dictKeys {β : Type} (d : List (String × β)) : List String :=
  d.map Prod.fst

/-- Python `d.get(k)` / `d[k]`: the value stored under a key. -/
def dictGet {β : Type} : List (String × β) → String → Option β
  | [], _ => none
  | (k', v') :: rest, k => if k' == k then some v' else dictGet rest k

/-! ### Field-guide segmenter (`extract_monsters.py`) -/

/-- The static corrections table `MonsterExtractor.known_fixes`
(extract_monsters.py lines 127-135). -/
def knownFixes : List (String × String) :=
  [("Badger (andBadger, Giant)", "Badger (and Badger, Giant)"),
   ("CowDragon", "Cow Dragon"),
   ("Deer, Huge (MegalocerosorIrish Deer)", "Deer, Huge (Megaloceros or Irish Deer)"),
   ("Eel, Common, Electric, Weed, &Giant", "Eel, Common, Electric, Weed, & Giant"),
   ("GreatOrb ofEyes", "Great Orb of Eyes"),
   ("Infernal, DreadHorseman", "Infernal, Dread Horseman"),
   ("Ear Worms", "Ear Worms")]

/-- The name `_extract_monster_name_from_header` computes for a non-empty
(stripped) heading text before the index check: title post-processing
(`_postprocess_title`) followed by the `known_fixes` lookup
(extract_monsters.py lines 248-253). -/
def canonicalTitle (text : String) : String :=
  let t1 := postprocessTitle text
  (dictGet knownFixes t1).getD t1

/-- Embedding of `MonsterExtractor._extract_monster_name_from_header`
(extract_monsters.py lines 240-261).  `rawText` is the concatenation of the
stripped text leaves of the heading (`_get_recursive_text_list` followed by
`_concat_text_parts`); `idx` is the monster index extracted from the
document (a set, modelled as a list).  Returns `none` when no record must
be created for this heading. -/
def extractName (idx : List String) (rawText : String) : Option String :=
  let text := pyStripS rawText
  if text == "" then none
  else
    let t2 := canonicalTitle text
    if !idx.isEmpty && !idx.contains t2 then
      if t2 == "Monster Index" then none else some t2
    else some t2

/-- An element of the main monster section as seen by the segmentation loop
of `MonsterExtractor._extract_monster_data`: either a heading (`text:h`),
carrying the concatenated stripped text of its leaves, or any other child
element, carried as an opaque payload. -/
inductive SegElem where
  | heading (rawText : String)
  | content (payload : Nat)
deriving DecidableEq, Repr

/-- The names the extraction loop derives from the headings of the element
list, in document order (headings for which `extractName` fails contribute
nothing). -/
def succNames (idx : List String) : List SegElem → List String
  | [] => []
  | .heading t :: rest =>
    match extractName idx t with
    | some n => n :: succNames idx rest
    | none => succNames idx rest
  | .content _ :: rest => succNames idx rest

/-- Embedding of the segmentation loop of
`MonsterExtractor._extract_monster_data` (extract_monsters.py lines
211-237): on a heading the currently open record is saved, then a new
record is opened when a name can be extracted (otherwise the old record
stays open, exactly as in the Python `else: continue` branch); a
non-heading element is appended to the open record's content; at
end-of-scan the final open record is saved. -/
def segLoop (idx : List String) :
    List SegElem → List (String × List Nat) → Option String → List Nat →
    List (String × List Nat)
  | [], data, cur, content =>
    match cur with
    | some m => dictInsert data m content
    | none => data
  | .heading t :: rest, data, cur, content =>
    let data' := match cur with
      | some m => dictInsert data m content
      | none => data
    match extractName idx t with
    | some n => segLoop idx rest data' (some n) []
    | none => segLoop idx rest data' cur content
  | .content p :: rest, data, cur, content =>
    match cur with
    | some _ => segLoop idx rest data cur (content ++ [p])
    | none => segLoop idx rest data cur content

/-- Embedding of `MonsterExtractor._extract_monster_data`: run the
segmentation loop on the children of the main section with an empty open
record. -/
def extractMonsterData (idx : List String) (elems : List SegElem) :
    List (String × List Nat) :=
  segLoop idx elems [] none []

/-! ### Rules-book segmenter (`extract_monsters_core.py`) -/

/-- A heading of the rules document: its recursive text content
(`_get_text_content`, unstripped) and its `text:outline-level` attribute. -/
structure RHeader where
  text : String
  level : String
deriving DecidableEq, Repr

/-- Is this the "Monster Descriptions" section heading
(extract_monsters_core.py lines 58-64)? -/
def isMonsterDesc (h : RHeader) : Bool :=
  pyStripS h.text == "Monster Descriptions" && h.level == "2"

/-- Is this the terminating heading of the monsters section: outline level 1
with "PART" contained in its stripped upper-cased text
(extract_monsters_core.py lines 72-77)? -/
def isTerminator (h : RHeader) : Bool :=
  h.level == "1" && subStr "PART" (upperS (pyStripS h.text))

/-- Index of the first list element satisfying the test, scanning from
position 0. -/
def findIdxAux {α : Type} (p : α → Bool) : List α → Nat → Option Nat
  | [], _ => none
  | a :: rest, i => if p a then some i else findIdxAux p rest (i + 1)

/-- Index of the first list element satisfying the test. -/
def findFirstIdx {α : Type} (p : α → Bool) (l : List α) : Option Nat :=
  findIdxAux p l 0

/-- Embedding of the section-location part of
`RulesMonsterExtractor._extract_monster_data` (extract_monsters_core.py
lines 52-90): locate the "Monster Descriptions" level-2 heading (aborting
with the script's error message when absent), then slice the monster
headings up to the terminating "PART" level-1 heading, falling back to the
end of the document with a warning flag when no terminator exists. -/
def coreFindMonsters (headers : List RHeader) :
    Except String (List RHeader × Bool) :=
  match findFirstIdx isMonsterDesc headers with
  | none => .error "Could not find 'Monster Descriptions' section in document"
  | some i =>
    let rest := headers.drop (i + 1)
    match findFirstIdx isTerminator rest with
    | some k => .ok (rest.take k, false)
    | none => .ok (rest, true)

/-! ### Multi-monster splitter (`split_monsters.py`) -/

mutual

/-- Removal of HTML tags, mirroring `re.sub(r"<[^>]+>", "", text)`:
a left-to-right scan deleting every leftmost `<`...`>` group with at least
one non-`>` character inside (the regex finds no match at a `<` that is
immediately followed by `>` or that has no closing `>` after it). -/
def stripTags : List Char → List Char
  | [] => []
  | '<' :: rest => stripTagsIn rest ['<']
  | c :: rest => c :: stripTags rest

/-- Collector state of `stripTags`: scanning inside a candidate tag whose
characters so far are held (reversed) in `buf`.  On a `>` the group is
deleted when it had at least one inner character, otherwise the regex has
no match at the opening `<` and both characters are kept; at end of input
no closing `>` exists, so the whole buffer is literal output. -/
def stripTagsIn : List Char → List Char → List Char
  | [], buf => buf.reverse
  | '>' :: rest, buf =>
    if 2 ≤ buf.length then stripTags rest
    else '<' :: '>' :: stripTags rest
  | c :: rest, buf => stripTagsIn rest (c :: buf)

end

/-- Join a list of words with single spaces (Python `" ".join(...)`). -/
def joinSpace : List (List Char) → List Char
  | [] => []
  | [w] => w
  | w :: rest => w ++ ' ' :: joinSpace rest

/-- Embedding of `MonsterPostProcessor._clean_text` (split_monsters.py
lines 246-255): remove HTML tags, collapse whitespace runs via
`" ".join(clean.split())`, and strip. -/
def cleanText (s : String) : String :=
  ⟨pyStrip (joinSpace (pyWords (stripTags s.data)))⟩

/-- Embedding of `MonsterPostProcessor._clean_monster_name` (split_monsters.py
lines 257-264): `_clean_text`, then removal of asterisks, then strip. -/
def cleanMonsterName (s : String) : String :=
  ⟨pyStrip ((cleanText s).data.filter (fun c => c != '*'))⟩

/-- A table of the extracted monster JSON as consumed by the splitter:
its cell grid and its rendered HTML (the `type` field is constant and
omitted). -/
structure SrcTable where
  rows : List (List String)
  html : String
deriving DecidableEq, Repr

/-- A table of the splitter's output: either a table copied from the input
entity or the two-column table built by `_create_individual_stats_table`
(whose second cells may be Python `None`). -/
inductive OutTable where
  | copied (t : SrcTable)
  | created (rows : List (String × Option String))
deriving DecidableEq, Repr

/-- An input monster entity (`description_paragraphs`, `tables`,
`other_elements`). -/
structure MonsterData where
  descriptionParagraphs : List String
  tables : List SrcTable
  otherElements : List (String × String)
deriving DecidableEq, Repr

/-- An output monster entity of the splitter, with its `split` flag. -/
structure OutMonster where
  descriptionParagraphs : List String
  tables : List OutTable
  otherElements : List (String × String)
  split : Bool
deriving DecidableEq, Repr

/-- One iteration of the row loop of
`MonsterPostProcessor._create_individual_stats_table` (split_monsters.py
lines 220-239): pick the cell at `ci` when the row is long enough (an empty
cell staying empty, a present cell being stripped), fall back to the
second cell for two-cell rows when the value is missing or empty, and emit
`[row[0], value]` with the value possibly `None`. -/
def indivRow (ci : Nat) (row : List String) : String × Option String :=
  let mv0 : Option String :=
    match row.get? ci with
    | some cell => some (if cell == "" then "" else pyStripS cell)
    | none => none
  let mv : Option String :=
    match mv0 with
    | some s =>
      if s == "" then
        if row.length == 2 then some (pyStripS ((row.get? 1).getD "")) else some s
      else some s
    | none =>
      if row.length == 2 then some (pyStripS ((row.get? 1).getD "")) else none
  (row.headD "", mv)

/-- The rows built by `_create_individual_stats_table` for column `ci`:
every data row (the header row dropped) is emitted through `indivRow`. -/
def createIndivRows (st : SrcTable) (ci : Nat) : List (String × Option String) :=
  (st.rows.drop 1).map (indivRow ci)

/-- Embedding of `MonsterPostProcessor._create_individual_stats_table`
(split_monsters.py lines 213-244): the table list containing the
individual two-column stats table, or no table at all when no data row
survives. -/
def createIndiv (st : SrcTable) (ci : Nat) : List OutTable :=
  let rows' := createIndivRows st ci
  if rows'.isEmpty then [] else [.created rows']

/-- Embedding of `MonsterPostProcessor._extract_column_headers`
(split_monsters.py lines 139-149): clean every header cell after the
first, keeping empty headers to preserve column correspondence. -/
def extractColumnHeaders (headerRow : List String) : List String :=
  (headerRow.drop 1).map cleanText

/-- The candidate key with a numeric suffix picked by the duplicate-name
loop: Python `f"{clean_name} ({counter})"`. -/
def candName (clean : String) (k : Nat) : String :=
  clean ++ " (" ++ ⟨(Nat.toDigits 10 k)⟩ ++ ")"

/-- Fuelled embedding of the `while final_name in self.output_monsters`
loop of `_process_multi_monster_entry` (split_monsters.py lines 197-201):
try counters `k`, `k+1`, ... until the candidate key is unused. -/
def freshFrom (ks : List String) (clean : String) : Nat → Nat → String
  | k, 0 => candName clean k
  | k, fuel + 1 =>
    if ks.contains (candName clean k) then freshFrom ks clean (k + 1) fuel
    else candName clean k

/-- The key under which a (cleaned) sub-entity name is stored: the plain
name when unused, else the first counter suffix from 2 upwards making it
unique.  The fuel bound `ks.length + 1` is large enough for the loop to
always terminate with a fresh key. -/
def freshName (ks : List String) (clean : String) : String :=
  if ks.contains clean then freshFrom ks clean 2 (ks.length + 1) else clean

/-- Embedding of `MonsterPostProcessor._process_single_monster_entry`
(split_monsters.py lines 207-211). -/
def mkSingle (md : MonsterData) : OutMonster :=
  { descriptionParagraphs := md.descriptionParagraphs,
    tables := md.tables.map .copied,
    otherElements := md.otherElements,
    split := false }

/-- The sub-entity name built for column header `h` at position `i`
(split_monsters.py lines 170-174): the original name plus the stripped
header, or the positional fallback when the header is blank. -/
def safeNameOf (origName h : String) (i : Nat) : String :=
  if pyStripS h != "" then origName ++ " " ++ pyStripS h
  else origName ++ " (" ++ ⟨Nat.toDigits 10 (i + 1)⟩ ++ ")"

/-- The record built for one split sub-entity (split_monsters.py lines
176-191): shared description paragraphs and other elements, the individual
stats table for column `ci` followed by copies of the non-stats tables,
and the `split` flag set. -/
def splitRecord (md : MonsterData) (st : SrcTable) (ci : Nat) : OutMonster :=
  { descriptionParagraphs := md.descriptionParagraphs,
    tables := createIndiv st ci ++
      (md.tables.filter (fun t => t ≠ st)).map .copied,
    otherElements := md.otherElements,
    split := true }

/-- The per-column loop of `MonsterPostProcessor._process_multi_monster_entry`
(split_monsters.py lines 167-205): for each column header build the
sub-entity name (with positional fallback for blank headers), assemble the
new record from the individual stats table plus the copied non-stats
tables, clean the name, resolve key collisions with the counter loop, and
store the record. -/
def splitLoop (origName : String) (md : MonsterData) (st : SrcTable) :
    List String → Nat → List (String × OutMonster) → List (String × OutMonster)
  | [], _, out => out
  | h :: rest, i, out =>
    let cleanName := cleanMonsterName (safeNameOf origName h i)
    let finalName := freshName (dictKeys out) cleanName
    splitLoop origName md st rest (i + 1)
      (dictInsert out finalName (splitRecord md st (i + 1)))

/-- Embedding of `MonsterPostProcessor._process_multi_monster_entry`
(split_monsters.py lines 151-205), threading the `output_monsters` dict. -/
def processMulti (out : List (String × OutMonster)) (origName : String)
    (md : MonsterData) (st : SrcTable) : List (String × OutMonster) :=
  let headers := extractColumnHeaders (st.rows.headD [])
  if headers.isEmpty then dictInsert out origName (mkSingle md)
  else splitLoop origName md st headers 0 out

/-! ### Stat normalisation (`postprocess_tables.py`) -/

/-- The `EXPECTED_STATS` table of postprocess_tables.py (lines 16-27),
mapping each canonical camelCase key to its accepted label variations. -/
def expectedStats : List (String × List String) :=
  [("armorClass", ["Armor Class:"]),
   ("hitDice", ["Hit Dice:"]),
   ("numberOfAttacks", ["No. of Attacks:", "Number of Attacks:", "Attacks:",
                        "No of Attacks:", "No. Attacks:"]),
   ("damage", ["Damage:", "Dam:", "Damage"]),
   ("movement", ["Movement:", "Move:", "Movement"]),
   ("numberAppearing", ["No. Appearing:", "Number Appearing:", "No Appearing:",
                        "Appearing:", "No. App:"]),
   ("saveClass", ["Save As:", "Save as:", "Saves As:", "Saves as:", "Save"]),
   ("morale", ["Morale:", "Mor:", "Morale"]),
   ("treasureType", ["Treasure Type:", "Treasure:", "TT:", "Treasure Type"]),
   ("xp", ["XP:", "Experience:", "Exp:", "XP"])]

/-- Python `str.capitalize()`: first character upper-cased, the rest
lower-cased. -/
def capitalizeL : List Char → List Char
  | [] => []
  | c :: cs => Char.toUpper c :: cs.map Char.toLower

/-- The camelCase fallback of `normalize_key` (postprocess_tables.py lines
170-179): strip colons and periods, split into words, lower-case the first
word and capitalize the rest. -/
def camelKey (key : String) : String :=
  let clean := key.data.filter (fun c => c != ':' && c != '.')
  match pyWords clean with
  | [] => lowerS key
  | w :: rest => ⟨w.map Char.toLower ++ (rest.map capitalizeL).flatten⟩

/-- Embedding of `normalize_key` (postprocess_tables.py lines 162-179). -/
def normalizeKey (key : String) : String :=
  let key := pyStripS key
  match expectedStats.find? (fun p => p.2.contains key) with
  | some p => p.1
  | none => camelKey key

/-- The anchored match `re.match(r'^([^:]+?):\s*(\d+)', l)` used by
`parse_save_as`: a non-empty colon-free prefix, the first colon, optional
whitespace and a maximal non-empty digit run. -/
def saveMatch (l : List Char) : Option (List Char × List Char) :=
  let before := l.takeWhile (fun c => c != ':')
  match l.dropWhile (fun c => c != ':') with
  | ':' :: rest =>
    if before.isEmpty then none
    else
      let ds := (rest.dropWhile isPySpace).takeWhile Char.isDigit
      if ds.isEmpty then none else some (before, ds)
  | _ => none

/-- Embedding of `parse_save_as` (postprocess_tables.py lines 181-199). -/
def parseSaveAs (value : String) : Option String × Option String :=
  if value == "" || subStr "same as hit dice" (lowerS value) then (none, none)
  else
    match saveMatch (pyStrip value.data) with
    | some (g1, g2) => (some ⟨pyStrip g1⟩, some ⟨g2⟩)
    | none =>
      if subStr "normal man" (lowerS value) then (some "Normal Man", none)
      else (none, none)

/-- The scan `re.search(r'\(\+(\d+)\)', value)` of `parse_hit_dice`: the
first parenthesised `(+digits)` group, returning its digits. -/
def findBonus : List Char → Option (List Char)
  | '(' :: '+' :: rest =>
    let ds := rest.takeWhile Char.isDigit
    if !ds.isEmpty && (rest.dropWhile Char.isDigit).headD ' ' == ')' then some ds
    else findBonus ('+' :: rest)
  | _ :: rest => findBonus rest
  | [] => none

mutual

/-- Removal of parenthesised groups, mirroring
`re.sub(r'\([^)]*\)', '', value)`: delete every leftmost `(`...`)` group
(empty groups included); a `(` with no later `)` stays literal. -/
def removeParens : List Char → List Char
  | [] => []
  | '(' :: rest => removeParensIn rest ['(']
  | c :: rest => c :: removeParens rest

/-- Collector state of `removeParens`, scanning inside an open group. -/
def removeParensIn : List Char → List Char → List Char
  | [], buf => buf.reverse
  | ')' :: rest, _ => removeParens rest
  | c :: rest, buf => removeParensIn rest (c :: buf)

end

/-- Embedding of `parse_hit_dice` (postprocess_tables.py lines 201-221):
extract the `(+N)` attack bonus, delete all parenthesised groups and all
asterisks, and strip the remaining dice string. -/
def parseHitDice (value : String) : String × Option String :=
  if value == "" then (value, none)
  else
    let bonus := (findBonus value.data).map (fun ds => (⟨ds⟩ : String))
    let cleaned := (removeParens value.data).filter (fun c => c != '*')
    (⟨pyStrip cleaned⟩, bonus)

/-- One iteration of the row loop of `extract_stats_from_table`
(postprocess_tables.py lines 230-249): rows with at least two cells store
`stats[normalize_key(row[0])] = row[1].strip()`, with the Save-As and
Hit-Dice special cases. -/
def statRowStep (stats : List (String × String)) (row : List String) :
    List (String × String) :=
  if 2 ≤ row.length then
    let key := normalizeKey (row.headD "")
    let value := pyStripS ((row.get? 1).getD "")
    if key == "saveClass" then
      let p := parseSaveAs value
      let s1 := match p.1 with
        | some c => dictInsert stats "saveClass" c
        | none => stats
      match p.2 with
      | some lv => dictInsert s1 "saveLevel" lv
      | none => s1
    else if key == "hitDice" then
      let p := parseHitDice value
      let s1 := dictInsert stats "hitDice" p.1
      match p.2 with
      | some b => dictInsert s1 "attackBonus" b
      | none => s1
    else dictInsert stats key value
  else stats

/-- Embedding of `extract_stats_from_table` (postprocess_tables.py lines
223-251) on the row grid of a table. -/
def extractStatsFromTable (rows : List (List String)) : List (String × String) :=
  rows.foldl statRowStep []

/-! ### Foundry hit-dice adapter (`src/create_foundry_monsters.py`) -/

/-- Decimal value of a digit run (Python `int` on a digit string). -/
def digitsVal (l : List Char) : Nat :=
  l.foldl (fun a c => 10 * a + (c.toNat - 48)) 0

/-- The scan `re.search(r"\+\d+", hd)`: the first `+` that is followed by
at least one digit, returning its maximal digit run. -/
def findPlusDigits : List Char → Option (List Char)
  | [] => none
  | c :: rest =>
    if c == '+' then
      let ds := rest.takeWhile Char.isDigit
      if ds.isEmpty then findPlusDigits rest else some ds
    else findPlusDigits rest

/-- Embedding of the hit-dice decomposition of `generate_foundry_data`
(src/create_foundry_monsters.py lines 23-38): die size, die count and
modifier extracted from the free-text Hit Dice string. -/
def foundryHD (hd : String) : String × Nat × Nat :=
  let p :=
    if subStr "½" hd || subStr "d4" hd then ("d4", 1)
    else
      match hd.data.takeWhile Char.isDigit with
      | [] => ("d8", 1)
      | ds => ("d8", digitsVal ds)
  let m :=
    match findPlusDigits hd.data with
    | some ds => digitsVal ds
    | none => 0
  (p.1, p.2, m)

/-! ### Supplement spell extractor (`src/extract_supplement_spells.py`) -/

/-- A spell record under construction: a Python dict with the keys the
extractor may set (`None` meaning "key absent"). -/
structure Spell where
  name : Option String := none
  range : Option String := none
  duration : Option String := none
  level : Option Nat := none
  cls : Option String := none
  description : Option (List String) := none
deriving DecidableEq, Repr

/-- Python truthiness of the `current_spell` dict: empty iff no key set. -/
def spellEmpty (s : Spell) : Bool :=
  s.name.isNone && s.range.isNone && s.duration.isNone && s.level.isNone &&
    s.cls.isNone && s.description.isNone

/-- The `known_exceptions` list of literal spell-opening lines
(src/extract_supplement_spells.py line 61). -/
def knownExceptions : List String :=
  ["Protection from Undead*", "Protection from Undead 10\x27 Radius*"]

/-- Python `\w` on the pipeline's ASCII vocabulary: letters, digits and
underscore. -/
def isWordChar (c : Char) : Bool :=
  c.isAlphanum || c == '_'

/-- The character class `[-\w\s]` of the metadata regex. -/
def isClassChar (c : Char) : Bool :=
  c == '-' || isWordChar c || isPySpace c

/-- Largest position `≥ 1` holding a digit, scanning a character list. -/
def lastDigitGe1 : List Char → Nat → Option Nat → Option Nat
  | [], _, best => best
  | c :: rest, pos, best =>
    lastDigitGe1 rest (pos + 1) (if c.isDigit && 1 ≤ pos then some pos else best)

/-- The match `re.match(r"([-\w\s]+)(\d)", part)`: the greedy class run is
backtracked to the last digit position that leaves a non-empty first
group, yielding (group 1, the digit of group 2). -/
def suppMatch (l : List Char) : Option (List Char × Char) :=
  let run := l.takeWhile isClassChar
  match lastDigitGe1 run 0 none with
  | some i => some (run.take i, (run.drop i).headD '0')
  | none => none

/-- Embedding of `identify_part` (src/extract_supplement_spells.py lines
22-35) as an update of the current spell dict: a class-level match sets
`class` and `level`, otherwise a non-blank prefix becomes the name, and a
blank prefix changes nothing. -/
def suppIdentify (part : String) (s : Spell) : Spell :=
  match suppMatch part.data with
  | some (g1, d) =>
    { s with cls := some ⟨pyStrip g1⟩, level := some (d.toNat - 48) }
  | none =>
    if pyStripS part != "" then { s with name := some (pyStripS part) } else s

/-- Split at every occurrence of the (non-empty) separator `s0 :: srest`,
mirroring Python `str.split(sep)`.  The `Nat` argument counts separator
characters still to be skipped after a match (so the recursion is
structural on the scanned list). -/
def splitOnAux (s0 : Char) (srest : List Char) :
    List Char → Nat → List Char → List (List Char)
  | [], _, acc => [acc.reverse]
  | _ :: rest, k + 1, acc => splitOnAux s0 srest rest k acc
  | c :: rest, 0, acc =>
    if (s0 :: srest).isPrefixOf (c :: rest) then
      acc.reverse :: splitOnAux s0 srest rest srest.length []
    else splitOnAux s0 srest rest 0 (c :: acc)

/-- Python `s.split(sep)` for a non-empty separator. -/
def pySplit (sep : String) (s : String) : List String :=
  match sep.data with
  | [] => [s]
  | c :: cs => (splitOnAux c cs s.data 0 []).map (fun l => (⟨l⟩ : String))

/-- A child node of the spell section as seen by the line-scan loop: its
flattened text (`concat_text_parts(get_recursive_text(child))`), whether
it is a `table:table` node, and the HTML its table conversion renders. -/
structure SChild where
  text : String
  isTable : Bool
  tableHtml : String
deriving DecidableEq, Repr

/-- A top-level child of the document text as seen by the section-locating
loop of `main`: its flattened text and its own children. -/
structure STop where
  text : String
  children : List SChild
deriving DecidableEq, Repr

/-- State of the line-scan loop: the section flag, the open spell dict and
the finished spells. -/
structure SuppState where
  foundList : Bool
  current : Spell
  spells : List Spell
deriving DecidableEq, Repr

/-- One iteration of the line-scan loop of `main`
(src/extract_supplement_spells.py lines 78-138): handle the section
marker, the exception lines, the `Range:`/`Duration:` metadata lines (with
`identify_part` on the text before the marker) and description lines. -/
def suppStep (st : SuppState) (ch : SChild) : SuppState :=
  let t := ch.text
  if t == "DESCRIPTION OF NEW SPELLS" then { st with foundList := true }
  else if !st.foundList then st
  else if knownExceptions.contains t then
    let spells :=
      if !spellEmpty st.current then st.spells ++ [st.current] else st.spells
    { st with spells := spells, current := { name := some t } }
  else if subStr "Range:" t then
    let pushed := !spellEmpty st.current && st.current.range.isSome
    let spells := if pushed then st.spells ++ [st.current] else st.spells
    let cur : Spell := if pushed then {} else st.current
    let parts := pySplit "Range:" t
    let cur := { cur with range := some (pyStripS ((parts.get? 1).getD "")) }
    let cur := suppIdentify (parts.headD "") cur
    { st with spells := spells, current := cur }
  else if subStr "Duration:" t then
    let parts := pySplit "Duration:" t
    let cur := { st.current with
                   duration := some (pyStripS ((parts.get? 1).getD "")) }
    let cur := suppIdentify (parts.headD "") cur
    { st with current := cur }
  else
    let desc := st.current.description.getD []
    let item := if ch.isTable then ch.tableHtml else "<p>" ++ t ++ "</p>"
    { st with current := { st.current with description := some (desc ++ [item]) } }

/-- The line-scan loop of `main` over the children of the spell section,
followed by the unconditional final `spells.append(current_spell)`
(src/extract_supplement_spells.py line 140). -/
def suppInner (children : List SChild) : List Spell :=
  let st := children.foldl suppStep ⟨false, {}, []⟩
  st.spells ++ [st.current]

/-- Embedding of `main` (src/extract_supplement_spells.py lines 63-140):
locate the first top-level child containing the section marker and run the
line scan on its children; `none` when the marker is absent (the script
logs an error and exits). -/
def suppMain (tops : List STop) : Option (List Spell) :=
  match tops.find? (fun tp => subStr "DESCRIPTION OF NEW SPELLS" tp.text) with
  | none => none
  | some tp => some (suppInner tp.children)

/-! ### Decimal rendering of naturals (for the duplicate-name counter) -/

/-- Reference decimal rendering of a natural number, digit by digit. -/
def myDigits (n : Nat) : List Char :=
  if n < 10 then [Nat.digitChar n]
  else myDigits (n / 10) ++ [Nat.digitChar (n % 10)]
  decreasing_by exact Nat.div_lt_self (by omega) (by omega)

/-! ## Helper lemmas: the dict model -/

theorem dictKeys_nil {β : Type} : dictKeys ([] : List (String × β)) = [] := rfl

theorem dictKeys_cons {β : Type} (p : String × β) (d : List (String × β)) :
    dictKeys (p :: d) = p.1 :: dictKeys d := rfl

theorem dictKeys_dictInsert {β : Type} (d : List (String × β)) (k : String) (v : β) :
    dictKeys (dictInsert d k v) =
      if k ∈ dictKeys d then dictKeys d else dictKeys d ++ [k] := by
  induction d with
  | nil => simp [dictInsert, dictKeys]
  | cons p rest ih =>
    obtain ⟨k', v'⟩ := p
    by_cases h : k' = k
    · subst h
      simp [dictInsert, dictKeys]
    · have hb : (k' == k) = false := by simp [h]
      have hne : k ≠ k' := Ne.symm h
      simp only [dictInsert, hb, Bool.false_eq_true, if_false, dictKeys_cons, ih,
        List.mem_cons, hne, false_or]
      by_cases hmem : k ∈ dictKeys rest
      · simp [hmem]
      · simp [hmem]

theorem dictInsert_of_not_mem {β : Type} {d : List (String × β)} {k : String}
    (v : β) (h : k ∉ dictKeys d) : dictInsert d k v = d ++ [(k, v)] := by
  induction d with
  | nil => rfl
  | cons p rest ih =>
    obtain ⟨k', v'⟩ := p
    simp only [dictKeys_cons, List.mem_cons, not_or] at h
    have hb : (k' == k) = false := by simp [Ne.symm h.1]
    simp [dictInsert, hb, ih h.2]

theorem dictGet_dictInsert_self {β : Type} (d : List (String × β)) (k : String)
    (v : β) : dictGet (dictInsert d k v) k = some v := by
  induction d with
  | nil => simp [dictInsert, dictGet]
  | cons p rest ih =>
    obtain ⟨k', v'⟩ := p
    by_cases h : k' = k
    · subst h; simp [dictInsert, dictGet]
    · have hb : (k' == k) = false := by simp [h]
      simp [dictInsert, dictGet, hb, ih]

theorem dictGet_dictInsert_ne {β : Type} (d : List (String × β)) {k k' : String}
    (v : β) (h : k' ≠ k) : dictGet (dictInsert d k v) k' = dictGet d k' := by
  induction d with
  | nil => simp [dictInsert, dictGet, Ne.symm h]
  | cons p rest ih =>
    obtain ⟨k0, v0⟩ := p
    by_cases h0 : k0 = k
    · subst h0
      have hb : (k0 == k') = false := by simp [Ne.symm h]
      simp [dictInsert, dictGet, hb, Ne.symm h]
    · have hb : (k0 == k) = false := by simp [h0]
      by_cases h1 : k0 = k'
      · subst h1; simp [dictInsert, dictGet, hb]
      · have hb1 : (k0 == k') = false := by simp [h1]
        simp [dictInsert, dictGet, hb, hb1, ih]

/-! ## Helper lemmas: the pruning pass (C2) -/

theorem allCleanList_iff (l : List XNode) :
    allCleanList l = true ↔ ∀ n ∈ l, allClean n = true := by
  induction l with
  | nil => simp [allCleanList]
  | cons n rest ih => simp [allCleanList, ih]

theorem pruneChildren_allClean : ∀ (l : List XNode),
    allCleanList (pruneChildren l) = true
  | [] => by simp [pruneChildren, allCleanList]
  | .text s :: rest => by
    have h2 := pruneChildren_allClean rest
    simp [pruneChildren, allCleanList, allClean, h2]
  | .elem attrs cs :: rest => by
    have h1 := pruneChildren_allClean cs
    have h2 := pruneChildren_allClean rest
    by_cases h : ((pruneChildren cs).isEmpty && removableAttrs attrs) = true
    · simp [pruneChildren, h, h2]
    · simp only [pruneChildren, h, if_false, allCleanList, allClean, h1, h2,
        Bool.and_true]
      simp only [Bool.not_eq_true] at h ⊢
      simp [h]

/-! ## Helper lemmas: the title post-processing passes (C9) -/

theorem commaParen_eq (l : List Char) :
    addParenSpace (addCommaSpace l) = commaParenPasses l := by
  induction l with
  | nil => rfl
  | cons c rest ih =>
    by_cases hc : c = ','
    · subst hc
      simp [addCommaSpace, addParenSpace, commaParenPasses, ih]
    · by_cases hp : c = '('
      · subst hp
        simp [addCommaSpace, addParenSpace, commaParenPasses, ih]
      · simp [addCommaSpace, addParenSpace, commaParenPasses, hc, hp, ih]

theorem hasDD_cons (a : Char) (l : List Char) :
    hasDD (a :: l) = ((startsSp l && (a == ' ')) || hasDD l) := by
  match l with
  | [] => simp [hasDD, startsSp]
  | x :: r => simp [hasDD, startsSp, Bool.and_comm]

theorem hasTriple_cons (a : Char) (l : List Char) :
    hasTriple (a :: l) = ((startsDD l && (a == ' ')) || hasTriple l) := by
  match l with
  | [] => simp [hasTriple, startsDD]
  | [x] => simp [hasTriple, startsDD]
  | x :: y :: r =>
    simp [hasTriple, startsDD, Bool.and_comm, Bool.and_assoc, Bool.and_left_comm]

theorem hasCSP_cons (a : Char) (l : List Char) :
    hasCSP (a :: l) = ((startsSpParen l && (a == ',')) || hasCSP l) := by
  match l with
  | [] => simp [hasCSP, startsSpParen]
  | [x] => simp [hasCSP, startsSpParen]
  | x :: y :: r =>
    simp [hasCSP, startsSpParen, Bool.and_comm, Bool.and_assoc, Bool.and_left_comm]

theorem startsDD_hasDD {l : List Char} (h : startsDD l = true) : hasDD l = true := by
  match l with
  | c1 :: c2 :: r =>
    simp only [startsDD] at h
    simp [hasDD, h]

theorem startsSpParen_startsSp {l : List Char} (h : startsSpParen l = true) :
    startsSp l = true := by
  match l with
  | c1 :: c2 :: r =>
    simp only [startsSpParen, Bool.and_eq_true] at h
    simp [startsSp, h.1]

theorem commaParenPasses_comma (rest : List Char) :
    commaParenPasses (',' :: rest) = ',' :: ' ' :: commaParenPasses rest := by
  simp [commaParenPasses]

theorem commaParenPasses_paren (rest : List Char) :
    commaParenPasses ('(' :: rest) = ' ' :: '(' :: commaParenPasses rest := by
  simp [commaParenPasses]

theorem commaParenPasses_other {c : Char} (h1 : c ≠ ',') (h2 : c ≠ '(')
    (rest : List Char) :
    commaParenPasses (c :: rest) = c :: commaParenPasses rest := by
  simp [commaParenPasses, h1, h2]

theorem startsSp_cons (c : Char) (l : List Char) :
    startsSp (c :: l) = (c == ' ') := rfl

theorem startsDD_cons (c : Char) (l : List Char) :
    startsDD (c :: l) = ((c == ' ') && startsSp l) := by
  match l with
  | [] => simp [startsDD, startsSp]
  | x :: r => rfl

theorem startsSpParen_cons (c : Char) (l : List Char) :
    startsSpParen (c :: l) = ((c == ' ') && startsPar l) := by
  match l with
  | [] => simp [startsSpParen, startsPar]
  | x :: r => rfl

theorem startsSp_commaParen {l : List Char}
    (h : startsSp (commaParenPasses l) = true) :
    startsSp l = true ∨ startsPar l = true := by
  match l with
  | [] => simp [commaParenPasses, startsSp] at h
  | c :: rest =>
    by_cases hc : c = ','
    · subst hc
      rw [commaParenPasses_comma, startsSp_cons] at h
      simp at h
    · by_cases hp : c = '('
      · subst hp
        right; simp [startsPar]
      · left
        rw [commaParenPasses_other hc hp, startsSp_cons] at h
        rw [startsSp_cons]
        exact h

theorem startsDD_startsSp {l : List Char} (h : startsDD l = true) :
    startsSp l = true := by
  match l with
  | c1 :: c2 :: r =>
    simp only [startsDD, Bool.and_eq_true] at h
    simp [startsSp, h.1]

theorem startsDD_commaParen {l : List Char}
    (h : startsDD (commaParenPasses l) = true) :
    startsDD l = true ∨ startsSpParen l = true := by
  match l with
  | [] => simp [commaParenPasses, startsDD] at h
  | c :: rest =>
    by_cases hc : c = ','
    · subst hc
      rw [commaParenPasses_comma, startsDD_cons] at h
      simp at h
    · by_cases hp : c = '('
      · subst hp
        rw [commaParenPasses_paren, startsDD_cons, startsSp_cons] at h
        simp at h
      · rw [commaParenPasses_other hc hp, startsDD_cons] at h
        obtain ⟨h1, h2⟩ := Bool.and_eq_true_iff.mp h
        rcases startsSp_commaParen h2 with hs | hpr
        · left
          rw [startsDD_cons]
          simp [h1, hs]
        · right
          rw [startsSpParen_cons]
          simp [h1, hpr]

theorem commaParen_noTriple : ∀ {l : List Char}, hasDD l = false →
    hasCSP l = false → hasTriple (commaParenPasses l) = false
  | [], _, _ => rfl
  | c :: rest, hdd, hcsp => by
    have hdd' := hdd
    have hcsp' := hcsp
    rw [hasDD_cons] at hdd'
    rw [hasCSP_cons] at hcsp'
    obtain ⟨hdd1, hddr⟩ := Bool.or_eq_false_iff.mp hdd'
    obtain ⟨hcsp1, hcspr⟩ := Bool.or_eq_false_iff.mp hcsp'
    have ih := commaParen_noTriple hddr hcspr
    by_cases hc : c = ','
    · subst hc
      have hspr : startsSpParen rest = false := by simpa using hcsp1
      have hsd : startsDD (commaParenPasses rest) = false := by
        cases hx : startsDD (commaParenPasses rest) with
        | false => rfl
        | true =>
          rcases startsDD_commaParen hx with h1 | h2
          · rw [startsDD_hasDD h1] at hddr; exact absurd hddr (by simp)
          · rw [h2] at hspr; exact absurd hspr (by simp)
      rw [commaParenPasses_comma, hasTriple_cons, hasTriple_cons, ih, hsd]
      simp
    · by_cases hp : c = '('
      · subst hp
        rw [commaParenPasses_paren, hasTriple_cons, hasTriple_cons, ih,
          startsDD_cons]
        simp
      · rw [commaParenPasses_other hc hp, hasTriple_cons, ih]
        by_cases hsp : c = ' '
        · subst hsp
          have hsr : startsSp rest = false := by simpa using hdd1
          have hsd : startsDD (commaParenPasses rest) = false := by
            cases hx : startsDD (commaParenPasses rest) with
            | false => rfl
            | true =>
              rcases startsDD_commaParen hx with h1 | h2
              · rw [startsDD_startsSp h1] at hsr; exact absurd hsr (by simp)
              · rw [startsSpParen_startsSp h2] at hsr; exact absurd hsr (by simp)
          rw [hsd]; simp
        · have hb : (c == ' ') = false := by simp [hsp]
          simp [hb]

theorem startsSp_collapsePairs : ∀ {l : List Char},
    startsSp (collapsePairs l) = true → startsSp l = true
  | [], h => h
  | [c], h => h
  | c1 :: c2 :: rest, h => by
    by_cases hs : (c1 == ' ' && c2 == ' ') = true
    · simp only [collapsePairs, hs, if_true] at h
      simp [startsSp, (Bool.and_eq_true_iff.mp hs).1]
    · simp only [collapsePairs, hs, if_false] at h
      simpa [startsSp] using h

theorem collapsePairs_noDD : ∀ {l : List Char}, hasTriple l = false →
    hasDD (collapsePairs l) = false
  | [], _ => rfl
  | [c], _ => rfl
  | c1 :: c2 :: rest, h => by
    have h' := h
    rw [hasTriple_cons] at h'
    obtain ⟨h1, h2⟩ := Bool.or_eq_false_iff.mp h'
    by_cases hs : (c1 == ' ' && c2 == ' ') = true
    · obtain ⟨hc1, hc2⟩ := Bool.and_eq_true_iff.mp hs
      have hr : hasTriple rest = false := by
        rw [hasTriple_cons] at h2
        exact (Bool.or_eq_false_iff.mp h2).2
      have hsr : startsSp rest = false := by
        rw [startsDD_cons, hc2] at h1
        simpa [hc1] using h1
      have ih := collapsePairs_noDD hr
      simp only [collapsePairs, hs, if_true]
      rw [hasDD_cons, ih]
      cases hx : startsSp (collapsePairs rest) with
      | false => simp
      | true =>
        rw [startsSp_collapsePairs hx] at hsr
        exact absurd hsr (by simp)
    · have ih := collapsePairs_noDD h2
      simp only [collapsePairs, hs, Bool.false_eq_true, if_false]
      rw [hasDD_cons, ih]
      by_cases hc1 : c1 = ' '
      · subst hc1
        have hc2 : (c2 == ' ') = false := by
          cases hy : (c2 == ' ') with
          | false => rfl
          | true => exact absurd (by simp [hy] : (' ' == ' ' && c2 == ' ') = true) hs
        cases hx : startsSp (collapsePairs (c2 :: rest)) with
        | false => simp
        | true =>
          have := startsSp_collapsePairs hx
          rw [startsSp_cons] at this
          rw [this] at hc2
          exact absurd hc2 (by simp)
      · have hb : (c1 == ' ') = false := by simp [hc1]
        simp [hb]

/-! ## Helper lemmas: the field-guide segmentation loop (C1, C3) -/

theorem mem_dictKeys_dictInsert_self {β : Type} (d : List (String × β))
    (k : String) (v : β) : k ∈ dictKeys (dictInsert d k v) := by
  rw [dictKeys_dictInsert]
  by_cases h : k ∈ dictKeys d
  · rw [if_pos h]; exact h
  · simp [h]

theorem mem_dictKeys_dictInsert {β : Type} {d : List (String × β)}
    {k k0 : String} {v : β} (h : k ∈ dictKeys (dictInsert d k0 v)) :
    k ∈ dictKeys d ∨ k = k0 := by
  rw [dictKeys_dictInsert] at h
  by_cases h0 : k0 ∈ dictKeys d
  · rw [if_pos h0] at h; exact Or.inl h
  · rw [if_neg h0] at h
    rcases List.mem_append.mp h with h1 | h1
    · exact Or.inl h1
    · simp at h1; exact Or.inr h1

theorem succNames_heading (idx : List String) (t : String) (rest : List SegElem) :
    succNames idx (.heading t :: rest) =
      (match extractName idx t with
       | some n => n :: succNames idx rest
       | none => succNames idx rest) := rfl

theorem succNames_content (idx : List String) (p : Nat) (rest : List SegElem) :
    succNames idx (.content p :: rest) = succNames idx rest := rfl

theorem segLoop_keys (idx : List String) (elems : List SegElem) :
    ∀ (data : List (String × List Nat)) (cur : Option String)
      (content : List Nat),
      (succNames idx elems).Nodup →
      (∀ k ∈ dictKeys data, k ∉ succNames idx elems) →
      (∀ m, cur = some m → m ∉ succNames idx elems) →
      dictKeys (segLoop idx elems data cur content) =
        dictKeys data ++
          (match cur with
           | some m => if m ∈ dictKeys data then [] else [m]
           | none => []) ++ succNames idx elems := by
  induction elems with
  | nil =>
    intro data cur content _ _ _
    cases cur with
    | none => simp [segLoop, succNames]
    | some m =>
      simp only [segLoop, succNames, dictKeys_dictInsert, List.append_nil]
      by_cases h : m ∈ dictKeys data <;> simp [h]
  | cons e rest ih =>
    intro data cur content hnd hdisj hcur
    cases e with
    | content p =>
      rw [succNames_content] at hnd hdisj hcur
      cases cur with
      | none =>
        show dictKeys (segLoop idx rest data none content) = _
        rw [ih data none content hnd hdisj (by simp), succNames_content]
      | some m =>
        show dictKeys (segLoop idx rest data (some m) (content ++ [p])) = _
        rw [ih data (some m) (content ++ [p]) hnd hdisj hcur, succNames_content]
    | heading t =>
      cases hext : extractName idx t with
      | none =>
        have hs : succNames idx (SegElem.heading t :: rest) = succNames idx rest := by
          rw [succNames_heading, hext]
        rw [hs] at hnd hdisj hcur
        cases cur with
        | none =>
          simp only [segLoop, hext]
          rw [ih data none content hnd hdisj (by simp), hs]
        | some m =>
          have hm : m ∉ succNames idx rest := hcur m rfl
          have hd2 : ∀ k ∈ dictKeys (dictInsert data m content),
              k ∉ succNames idx rest := by
            intro k hk
            rcases mem_dictKeys_dictInsert hk with h1 | h1
            · exact hdisj k h1
            · subst h1; exact hm
          simp only [segLoop, hext]
          rw [ih (dictInsert data m content) (some m) content hnd hd2 hcur, hs]
          dsimp only
          have hmm : m ∈ dictKeys (dictInsert data m content) :=
            mem_dictKeys_dictInsert_self data m content
          rw [if_pos hmm, dictKeys_dictInsert]
          by_cases h : m ∈ dictKeys data
          · simp [h]
          · simp [h]
      | some n =>
        have hs : succNames idx (SegElem.heading t :: rest) =
            n :: succNames idx rest := by
          rw [succNames_heading, hext]
        rw [hs] at hnd hdisj hcur
        have hnn : n ∉ succNames idx rest := (List.nodup_cons.mp hnd).1
        have hnd2 : (succNames idx rest).Nodup := (List.nodup_cons.mp hnd).2
        have hnd0 : n ∉ dictKeys data := by
          intro hmem
          exact (hdisj n hmem) (by simp)
        cases cur with
        | none =>
          simp only [segLoop, hext]
          rw [ih data (some n) [] hnd2
              (fun k hk => fun hc => (hdisj k hk) (List.mem_cons_of_mem _ hc))
              (by intro m hm; cases hm; exact hnn),
            hs]
          dsimp only
          rw [if_neg hnd0]
          simp
        | some m =>
          have hm : m ∉ n :: succNames idx rest := hcur m rfl
          have hmn : n ≠ m := by
            intro heq; exact hm (by simp [heq])
          have hd2 : ∀ k ∈ dictKeys (dictInsert data m content),
              k ∉ succNames idx rest := by
            intro k hk
            rcases mem_dictKeys_dictInsert hk with h1 | h1
            · exact fun hc => (hdisj k h1) (List.mem_cons_of_mem _ hc)
            · subst h1
              exact fun hc => hm (List.mem_cons_of_mem _ hc)
          have hn2 : n ∉ dictKeys (dictInsert data m content) := by
            intro hmem
            rcases mem_dictKeys_dictInsert hmem with h1 | h1
            · exact hnd0 h1
            · exact hmn h1
          simp only [segLoop, hext]
          rw [ih (dictInsert data m content) (some n) [] hnd2 hd2
              (by intro m2 hm2; cases hm2; exact hnn),
            hs]
          dsimp only
          rw [if_neg hn2, dictKeys_dictInsert]
          by_cases h : m ∈ dictKeys data
          · simp [h]
          · simp [h]

theorem segLoop_keys_sub (idx : List String) (elems : List SegElem) :
    ∀ (data : List (String × List Nat)) (cur : Option String)
      (content : List Nat) (k : String),
      k ∈ dictKeys (segLoop idx elems data cur content) →
      k ∈ dictKeys data ∨ cur = some k ∨ k ∈ succNames idx elems := by
  induction elems with
  | nil =>
    intro data cur content k hk
    cases cur with
    | none => exact Or.inl hk
    | some m =>
      rcases mem_dictKeys_dictInsert hk with h1 | h1
      · exact Or.inl h1
      · subst h1; exact Or.inr (Or.inl rfl)
  | cons e rest ih =>
    intro data cur content k hk
    cases e with
    | content p =>
      rw [succNames_content]
      cases cur with
      | none => exact ih data none content k hk
      | some m => exact ih data (some m) (content ++ [p]) k hk
    | heading t =>
      rw [succNames_heading]
      cases hext : extractName idx t with
      | none =>
        dsimp only
        cases cur with
        | none =>
          simp only [segLoop, hext] at hk
          exact ih data none content k hk
        | some m =>
          simp only [segLoop, hext] at hk
          rcases ih _ _ _ k hk with h1 | h1 | h1
          · rcases mem_dictKeys_dictInsert h1 with h2 | h2
            · exact Or.inl h2
            · subst h2; exact Or.inr (Or.inl rfl)
          · exact Or.inr (Or.inl h1)
          · exact Or.inr (Or.inr h1)
      | some n =>
        dsimp only
        cases cur with
        | none =>
          simp only [segLoop, hext] at hk
          rcases ih _ _ _ k hk with h1 | h1 | h1
          · exact Or.inl h1
          · cases h1; exact Or.inr (Or.inr (by simp))
          · exact Or.inr (Or.inr (List.mem_cons_of_mem _ h1))
        | some m =>
          simp only [segLoop, hext] at hk
          rcases ih _ _ _ k hk with h1 | h1 | h1
          · rcases mem_dictKeys_dictInsert h1 with h2 | h2
            · exact Or.inl h2
            · subst h2; exact Or.inr (Or.inl rfl)
          · cases h1; exact Or.inr (Or.inr (by simp))
          · exact Or.inr (Or.inr (List.mem_cons_of_mem _ h1))

theorem dictGet_mem {β : Type} : ∀ {d : List (String × β)} {k : String} {v : β},
    dictGet d k = some v → (k, v) ∈ d
  | [], _, _, h => by cases h
  | (k0, v0) :: rest, k, v, h => by
    by_cases he : k0 = k
    · subst he
      simp only [dictGet, beq_self_eq_true, if_true] at h
      cases h
      exact List.mem_cons_self _ _
    · have hb : (k0 == k) = false := by simp [he]
      simp only [dictGet, hb, Bool.false_eq_true, if_false] at h
      exact List.mem_cons_of_mem _ (dictGet_mem h)

theorem addCommaSpace_ne_nil {l : List Char} (h : l ≠ []) :
    addCommaSpace l ≠ [] := by
  match l with
  | c :: rest =>
    by_cases hc : (c == ',') = true <;> simp [addCommaSpace, hc]

theorem addParenSpace_ne_nil {l : List Char} (h : l ≠ []) :
    addParenSpace l ≠ [] := by
  match l with
  | c :: rest =>
    by_cases hc : (c == '(') = true <;> simp [addParenSpace, hc]

theorem collapsePairs_ne_nil {l : List Char} (h : l ≠ []) :
    collapsePairs l ≠ [] := by
  match l with
  | [c] => simp [collapsePairs]
  | c1 :: c2 :: rest =>
    by_cases hc : (c1 == ' ' && c2 == ' ') = true <;> simp [collapsePairs, hc]

theorem string_ne_empty_iff (s : String) : s ≠ "" ↔ s.data ≠ [] := by
  constructor
  · intro h hd
    exact h (String.ext hd)
  · intro h he
    apply h
    rw [he]

theorem postprocessTitle_ne_empty {s : String} (h : s ≠ "") :
    postprocessTitle s ≠ "" := by
  rw [string_ne_empty_iff] at h ⊢
  show collapsePairs (addParenSpace (addCommaSpace s.data)) ≠ []
  exact collapsePairs_ne_nil (addParenSpace_ne_nil (addCommaSpace_ne_nil h))

theorem canonicalTitle_ne_empty {text : String} (h : text ≠ "") :
    canonicalTitle text ≠ "" := by
  unfold canonicalTitle
  dsimp only
  cases hg : dictGet knownFixes (postprocessTitle text) with
  | none =>
    simpa using postprocessTitle_ne_empty h
  | some v =>
    have hv := dictGet_mem hg
    have hall : ∀ p ∈ knownFixes, p.2 ≠ "" := by decide
    simpa using hall _ hv

theorem extractName_some_eq {idx : List String} {t k : String}
    (h : extractName idx t = some k) :
    pyStripS t ≠ "" ∧ k = canonicalTitle (pyStripS t) := by
  unfold extractName at h
  by_cases h0 : (pyStripS t == "") = true
  · rw [if_pos h0] at h; cases h
  · rw [if_neg h0] at h
    refine ⟨by simpa using h0, ?_⟩
    dsimp only at h
    split at h
    · split at h
      · cases h
      · cases h; rfl
    · cases h; rfl

theorem extractName_some_ne_empty {idx : List String} {t k : String}
    (h : extractName idx t = some k) : k ≠ "" := by
  obtain ⟨h1, h2⟩ := extractName_some_eq h
  rw [h2]
  exact canonicalTitle_ne_empty h1

theorem succNames_mem {idx : List String} : ∀ {elems : List SegElem} {k : String},
    k ∈ succNames idx elems → ∃ t, extractName idx t = some k
  | [], k, h => by cases h
  | .heading t :: rest, k, h => by
    rw [succNames_heading] at h
    cases hext : extractName idx t with
    | none =>
      rw [hext] at h
      exact succNames_mem h
    | some n =>
      rw [hext] at h
      rcases List.mem_cons.mp h with h1 | h1
      · exact ⟨t, by rw [hext, h1]⟩
      · exact succNames_mem h1
  | .content p :: rest, k, h => by
    rw [succNames_content] at h
    exact succNames_mem h

/-! ## Helper lemmas: the rules-book segmenter (C4) -/

theorem findIdxAux_eq_none_iff {α : Type} (p : α → Bool) :
    ∀ (l : List α) (i : Nat),
      findIdxAux p l i = none ↔ ∀ a ∈ l, p a = false := by
  intro l
  induction l with
  | nil => intro i; simp [findIdxAux]
  | cons a rest ih =>
    intro i
    by_cases hp : p a = true
    · simp [findIdxAux, hp]
    · have hp2 : p a = false := by simpa using hp
      simp [findIdxAux, hp2, ih]

theorem findFirstIdx_eq_none_iff {α : Type} (p : α → Bool) (l : List α) :
    findFirstIdx p l = none ↔ ∀ a ∈ l, p a = false :=
  findIdxAux_eq_none_iff p l 0

/-! ## Claim theorems -/

/-- Claim C1: for every document whose headings yield pairwise-distinct
entity names, the field-guide segmenter emits exactly one record per
heading-delimited entity — its key list equals the extracted heading names
in document order (so the final open record, whose content ends at
end-of-document, is flushed and no entity is dropped). -/
theorem claim_C1_segmenter_flush (idx : List String) (elems : List SegElem)
    (h : (succNames idx elems).Nodup) :
    dictKeys (extractMonsterData idx elems) = succNames idx elems ∧
    (extractMonsterData idx elems).length = (succNames idx elems).length := by
  have hk := segLoop_keys idx elems [] none [] h (by simp [dictKeys]) (by simp)
  have hk2 : dictKeys (extractMonsterData idx elems) = succNames idx elems := by
    simpa [extractMonsterData, dictKeys] using hk
  refine ⟨hk2, ?_⟩
  have hlen : (extractMonsterData idx elems).length =
      (dictKeys (extractMonsterData idx elems)).length := by
    simp [dictKeys]
  rw [hlen, hk2]

/-- Witness for C1: a concrete document whose last entity's content runs to
end-of-document; both entities appear in the output, the last one included. -/
theorem claim_C1_segmenter_flush_witness :
    (succNames [] [SegElem.heading "Ogre", SegElem.content 0,
        SegElem.heading "Troll", SegElem.content 1, SegElem.content 2]).Nodup ∧
    dictKeys (extractMonsterData [] [SegElem.heading "Ogre", SegElem.content 0,
        SegElem.heading "Troll", SegElem.content 1, SegElem.content 2]) =
      ["Ogre", "Troll"] := by
  refine ⟨by decide, ?_⟩
  rw [(claim_C1_segmenter_flush [] [SegElem.heading "Ogre", SegElem.content 0,
        SegElem.heading "Troll", SegElem.content 1, SegElem.content 2]
      (by decide)).1]
  decide

/-- Counterexample for C2: the pruning pass never removes the root it is
called on, so after `prune_empty_elements` returns, the processed subtree
can still contain (as its root) an element with zero children and no
attribute beyond the style identifier: pruning `<elem><elem
text:style-name/></elem>` removes the inner span and leaves the root
empty and style-free, i.e. removable. -/
theorem claim_C2_pruning_counterexample :
    isRemovable (pruneNode (XNode.elem []
      [XNode.elem ["text:style-name"] []])) = true := by
  simp [pruneNode, pruneChildren, isRemovable, removableAttrs]

/-- Claim C2 (amended): after the pruning pre-pass returns on a subtree, no
node strictly below the subtree's root is an element with zero children
whose attributes are empty or style-only — the fixed point holds for every
strict descendant (parents that become newly empty are removed), but the
root itself is never removed and may remain empty. -/
theorem claim_C2_pruning_amended (n : XNode) :
    allCleanList (childrenOf (pruneNode n)) = true := by
  cases n with
  | text s => simp [pruneNode, childrenOf, allCleanList]
  | elem attrs cs =>
    simp only [pruneNode, childrenOf]
    exact pruneChildren_allClean cs

/-- Counterexample for C3: the supplement spell extractor emits a record
with no name at all when a `Range:` line carries a blank prefix — the
script only logs the missing key and still writes the record. -/
theorem claim_C3_nonempty_name_counterexample :
    suppMain [⟨"xx DESCRIPTION OF NEW SPELLS yy",
      [⟨"DESCRIPTION OF NEW SPELLS", false, ""⟩,
       ⟨"Range: 30 feet", false, ""⟩]⟩] =
      some [{ name := none, range := some "30 feet" }] ∧
    ({ name := none, range := some "30 feet" } : Spell).name = none := by
  constructor
  · decide
  · rfl

/-- Claim C3 (amended): in the monster segmenter's output no record exists
without a non-empty name — a heading whose flattened, trimmed text is empty
never creates a record; the spell extractors do not guarantee this (a
missing name is only logged, see the counterexample). -/
theorem claim_C3_nonempty_name_amended (idx : List String)
    (elems : List SegElem) (k : String)
    (hk : k ∈ dictKeys (extractMonsterData idx elems)) : k ≠ "" := by
  rcases segLoop_keys_sub idx elems [] none [] k hk with h | h | h
  · simp [dictKeys] at h
  · cases h
  · obtain ⟨t, ht⟩ := succNames_mem h
    exact extractName_some_ne_empty ht

/-- Witness for the amended C3: the key extracted from a concrete heading
is in the output and non-empty. -/
theorem claim_C3_nonempty_name_amended_witness :
    "Ogre" ∈ dictKeys (extractMonsterData [] [SegElem.heading " Ogre "]) ∧
    "Ogre" ≠ "" := by
  refine ⟨by decide, ?_⟩
  exact claim_C3_nonempty_name_amended [] [SegElem.heading " Ogre "] "Ogre"
    (by decide)

/-- Claim C4: the rules-book segmenter aborts with its descriptive error if
and only if no heading whose stripped text is exactly "Monster
Descriptions" at outline level 2 exists; and when the level-1 "PART"
terminator is absent after the section heading, it does not fail but
returns the headings to the end of the document with the warning flag set. -/
theorem claim_C4_core_segmenter_errors (headers : List RHeader) :
    ((coreFindMonsters headers =
        .error "Could not find 'Monster Descriptions' section in document") ↔
      ¬ ∃ h ∈ headers, pyStripS h.text = "Monster Descriptions" ∧ h.level = "2") ∧
    (∀ i, findFirstIdx isMonsterDesc headers = some i →
      (∀ h ∈ headers.drop (i + 1), isTerminator h = false) →
      coreFindMonsters headers = .ok (headers.drop (i + 1), true)) := by
  constructor
  · constructor
    · intro herr
      cases hf : findFirstIdx isMonsterDesc headers with
      | none =>
        rw [findFirstIdx_eq_none_iff] at hf
        rintro ⟨h, hmem, h1, h2⟩
        have := hf h hmem
        rw [isMonsterDesc] at this
        simp [h1, h2] at this
      | some i =>
        exfalso
        unfold coreFindMonsters at herr
        rw [hf] at herr
        dsimp only at herr
        cases h2 : findFirstIdx isTerminator (headers.drop (i + 1)) with
        | none => rw [h2] at herr; cases herr
        | some k => rw [h2] at herr; cases herr
    · intro hno
      cases hf : findFirstIdx isMonsterDesc headers with
      | none =>
        unfold coreFindMonsters
        rw [hf]
      | some i =>
        exfalso
        apply hno
        have : ¬ ∀ a ∈ headers, isMonsterDesc a = false := by
          intro hall
          rw [← findFirstIdx_eq_none_iff] at hall
          rw [hf] at hall
          cases hall
        push_neg at this
        obtain ⟨h, hmem, hmd⟩ := this
        have hmd2 : isMonsterDesc h = true := by simpa using hmd
        rw [isMonsterDesc, Bool.and_eq_true] at hmd2
        exact ⟨h, hmem, by simpa using hmd2.1, by simpa using hmd2.2⟩
  · intro i hf hterm
    unfold coreFindMonsters
    rw [hf]
    dsimp only
    have hnone : findFirstIdx isTerminator (headers.drop (i + 1)) = none := by
      rw [findFirstIdx_eq_none_iff]
      exact hterm
    rw [hnone]

/-- Witness for C4: a concrete document with the section heading present
and no terminator; the slice runs to the end of the document with the
warning flag. -/
theorem claim_C4_core_segmenter_errors_witness :
    findFirstIdx isMonsterDesc
        [⟨"Intro", "1"⟩, ⟨" Monster Descriptions ", "2"⟩, ⟨"Goblin", "3"⟩] =
      some 1 ∧
    coreFindMonsters
        [⟨"Intro", "1"⟩, ⟨" Monster Descriptions ", "2"⟩, ⟨"Goblin", "3"⟩] =
      .ok ([⟨"Goblin", "3"⟩], true) := by
  refine ⟨by decide, ?_⟩
  have h := (claim_C4_core_segmenter_errors
    [⟨"Intro", "1"⟩, ⟨" Monster Descriptions ", "2"⟩, ⟨"Goblin", "3"⟩]).2
    1 (by decide) (by decide)
  exact h

/-- Counterexample for C9: on a title with a three-space run the single
collapsing pass leaves a double space in the output, so the output is not
double-space-free for every input title. -/
theorem claim_C9_title_spacing_counterexample :
    postprocessTitle "a   b" = "a  b" ∧ hasDD ("a  b").data = true := by
  constructor
  · rfl
  · decide

/-- Claim C9 (amended): the title post-processing inserts a space after
every comma and before every opening paren unconditionally and then
collapses space pairs in a single non-overlapping pass; for every title
containing no two consecutive spaces and no comma-space-paren sequence the
output contains no double space. -/
theorem claim_C9_title_spacing_amended (s : String)
    (h1 : hasDD s.data = false) (h2 : hasCSP s.data = false) :
    hasDD (postprocessTitle s).data = false := by
  show hasDD (collapsePairs (addParenSpace (addCommaSpace s.data))) = false
  rw [commaParen_eq]
  exact collapsePairs_noDD (commaParen_noTriple h1 h2)

/-- Witness for the amended C9: a concrete title with single spaces, a
comma and a paren; the post-processed output has no double space. -/
theorem claim_C9_title_spacing_amended_witness :
    hasDD ("Wolf, Dire (Greater)").data = false ∧
    hasCSP ("Wolf, Dire (Greater)").data = false ∧
    hasDD (postprocessTitle "Wolf, Dire (Greater)").data = false :=
  ⟨by decide, by decide,
   claim_C9_title_spacing_amended "Wolf, Dire (Greater)" (by decide) (by decide)⟩

/-- Counterexample for C10: a cell that is present but empty (row length
not 2) is emitted as the empty string, not as `None` — the claim's
"missing or empty ... emits [label, null]" fails on the empty case. -/
theorem claim_C10_missing_value_counterexample :
    createIndivRows ⟨[["Stat", "A", "B"], ["Hit Dice", "", "9"]], ""⟩ 1 =
      [("Hit Dice", some "")] ∧ (some "" : Option String) ≠ none := by
  constructor
  · decide
  · decide

/-- Claim C10 (amended): when splitting a multi-entity stats table every
data row is emitted in every sub-entity's table; if the cell at the target
column is missing (the row is too short) and the row does not have exactly
two cells, the row is emitted as `[label, None]`; a present-but-empty cell
instead yields the empty string. -/
theorem claim_C10_missing_value_amended (st : SrcTable) (ci : Nat) :
    (createIndivRows st ci).length = st.rows.length - 1 ∧
    (∀ row ∈ st.rows.drop 1, row.length ≤ ci → row.length ≠ 2 →
      (row.headD "", (none : Option String)) ∈ createIndivRows st ci) := by
  constructor
  · simp [createIndivRows]
  · intro row hrow hlen h2
    have hr : indivRow ci row = (row.headD "", none) := by
      unfold indivRow
      have hg : row.get? ci = none := by
        rw [List.get?_eq_none]
        exact hlen
      rw [hg]
      dsimp only
      have hb : (row.length == 2) = false := by simp [h2]
      rw [hb]
      simp
    rw [← hr]
    exact List.mem_map_of_mem _ hrow

/-- Witness for the amended C10: a data row shorter than the target column
(and not of length two) appears in the sub-entity table with a null value. -/
theorem claim_C10_missing_value_amended_witness :
    (createIndivRows ⟨[["Stat", "A", "B"], ["HD"]], ""⟩ 2).length = 1 ∧
    ("HD", (none : Option String)) ∈
      createIndivRows ⟨[["Stat", "A", "B"], ["HD"]], ""⟩ 2 := by
  have h := claim_C10_missing_value_amended ⟨[["Stat", "A", "B"], ["HD"]], ""⟩ 2
  constructor
  · rw [h.1]
    decide
  · exact h.2 ["HD"] (by decide) (by decide) (by decide)

/-- Counterexample for C8: the stat-normalization step stores the Damage
value as one unsplit string — it is not split on commas or on the word
"or" into a sequence. -/
theorem claim_C8_damage_counterexample :
    extractStatsFromTable [["Damage:", "1d6, 1d4 or by weapon"]] =
      [("damage", "1d6, 1d4 or by weapon")] ∧
    "1d6, 1d4 or by weapon" ∉ (["1d6", "1d4", "by weapon"] : List String) := by
  constructor
  · decide
  · decide

/-- Claim C8 (amended): for a table row whose label normalizes to
"damage", the stat-normalization step stores the stripped value verbatim
under the key `damage` — no splitting on commas or on the standalone word
"or" takes place. -/
theorem claim_C8_damage_amended (lab v : String)
    (h : normalizeKey lab = "damage") :
    extractStatsFromTable [[lab, v]] = [("damage", pyStripS v)] := by
  show statRowStep [] [lab, v] = _
  unfold statRowStep
  rw [if_pos (by simp)]
  dsimp only [List.headD, List.get?, Option.getD]
  rw [h]
  rfl

/-- Witness for the amended C8: the "Dam:" label variant stores the
spec's example damage string unsplit. -/
theorem claim_C8_damage_amended_witness :
    normalizeKey "Dam:" = "damage" ∧
    extractStatsFromTable [["Dam:", "1d6, 1d4 or by weapon"]] =
      [("damage", pyStripS "1d6, 1d4 or by weapon")] :=
  ⟨by decide,
   claim_C8_damage_amended "Dam:" "1d6, 1d4 or by weapon" (by decide)⟩

theorem takeWhile_all {p : Char → Bool} : ∀ {l : List Char},
    (∀ c ∈ l, p c = true) → l.takeWhile p = l
  | [], _ => rfl
  | c :: rest, h => by
    rw [List.takeWhile_cons, if_pos (h c (List.mem_cons_self _ _)),
      takeWhile_all (fun d hd => h d (List.mem_cons_of_mem _ hd))]

theorem findPlusDigits_append : ∀ {pre : List Char}, '+' ∉ pre →
    ∀ {ds : List Char}, ds ≠ [] → (∀ c ∈ ds, c.isDigit = true) →
    findPlusDigits (pre ++ '+' :: ds) = some ds
  | [], _, ds, hne, hdig => by
    simp only [List.nil_append, findPlusDigits]
    rw [if_pos (by simp)]
    rw [takeWhile_all hdig, if_neg (by simpa using hne)]
  | c :: rest, hpre, ds, hne, hdig => by
    have hc : c ≠ '+' := by
      intro he; exact hpre (by simp [he])
    have hrest : '+' ∉ rest := fun h => hpre (List.mem_cons_of_mem _ h)
    simp only [List.cons_append, findPlusDigits]
    rw [if_neg (by simp [hc])]
    exact findPlusDigits_append hrest hne hdig

/-- Claim C7: the reshaper parses "3+2 (+8)" into the cleaned dice string
"3+2" with attack bonus "8"; and in the Foundry adapter a Hit Dice string
containing "½" or "d4" yields die type d4 with count 1, otherwise a
leading digit run is the die count with die type d8, and a trailing "+N"
(after a plus-free prefix) becomes the modifier. -/
theorem claim_C7_hit_dice :
    parseHitDice "3+2 (+8)" = ("3+2", some "8") ∧
    (∀ hd : String, (subStr "½" hd || subStr "d4" hd) = true →
      (foundryHD hd).1 = "d4" ∧ (foundryHD hd).2.1 = 1) ∧
    (∀ hd : String, (subStr "½" hd || subStr "d4" hd) = false →
      ∀ d dtl, hd.data.takeWhile Char.isDigit = d :: dtl →
      (foundryHD hd).1 = "d8" ∧ (foundryHD hd).2.1 = digitsVal (d :: dtl)) ∧
    (∀ (pre : String) (ds : List Char), '+' ∉ pre.data → ds ≠ [] →
      (∀ c ∈ ds, c.isDigit = true) →
      (foundryHD (pre ++ ⟨'+' :: ds⟩)).2.2 = digitsVal ds) := by
  refine ⟨by decide, ?_, ?_, ?_⟩
  · intro hd h
    unfold foundryHD
    rw [if_pos h]
    exact ⟨rfl, rfl⟩
  · intro hd h d dtl hds
    unfold foundryHD
    rw [if_neg (by simp [h]), hds]
    exact ⟨rfl, rfl⟩
  · intro pre ds hpre hne hdig
    unfold foundryHD
    have hdata : (pre ++ (⟨'+' :: ds⟩ : String)).data = pre.data ++ '+' :: ds := by
      rw [String.data_append]
    rw [hdata, findPlusDigits_append hpre hne hdig]

/-! ## Helper lemmas: decimal rendering and the duplicate-name loop (C6) -/

theorem toDigitsCore_eq_myDigits : ∀ (fuel n : Nat) (ds : List Char),
    n < 10 ^ fuel → 1 ≤ fuel →
    Nat.toDigitsCore 10 fuel n ds = myDigits n ++ ds := by
  intro fuel
  induction fuel with
  | zero => intro n ds _ hf; omega
  | succ f ih =>
    intro n ds hn _
    by_cases hz : n / 10 = 0
    · have hlt : n < 10 := by omega
      simp only [Nat.toDigitsCore, hz, if_true]
      rw [myDigits, if_pos hlt, Nat.mod_eq_of_lt hlt]
      rfl
    · have h10 : 10 ≤ n := by omega
      have hf1 : 1 ≤ f := by
        by_contra hf0
        have : f = 0 := by omega
        subst this
        simp at hn
        omega
      have hdiv : n / 10 < 10 ^ f := by
        rw [Nat.div_lt_iff_lt_mul (by norm_num)]
        calc n < 10 ^ (f + 1) := hn
        _ = 10 ^ f * 10 := by ring
      simp only [Nat.toDigitsCore, hz, if_false]
      rw [ih (n / 10) (Nat.digitChar (n % 10) :: ds) hdiv hf1]
      have hmy : myDigits n = myDigits (n / 10) ++ [Nat.digitChar (n % 10)] := by
        conv_lhs => rw [myDigits]
        rw [if_neg (by omega)]
      rw [hmy]
      simp [List.append_assoc]

theorem toDigits_eq_myDigits (n : Nat) : Nat.toDigits 10 n = myDigits n := by
  unfold Nat.toDigits
  rw [toDigitsCore_eq_myDigits (n + 1) n [] ?_ (by omega)]
  · simp
  · calc n < 10 ^ n := Nat.lt_pow_self (by norm_num) n
    _ ≤ 10 ^ (n + 1) := Nat.pow_le_pow_right (by norm_num) (by omega)

theorem digitChar_val : ∀ d : Nat, d < 10 →
    (Nat.digitChar d).toNat - 48 = d := by decide

theorem digitsVal_append_singleton (l : List Char) (c : Char) :
    digitsVal (l ++ [c]) = 10 * digitsVal l + (c.toNat - 48) := by
  simp [digitsVal, List.foldl_append]

theorem digitsVal_myDigits (n : Nat) : digitsVal (myDigits n) = n := by
  induction n using myDigits.induct with
  | case1 n h =>
    rw [myDigits, if_pos h]
    simpa [digitsVal] using digitChar_val n h
  | case2 n h ih =>
    rw [myDigits, if_neg h]
    rw [digitsVal_append_singleton, ih,
      digitChar_val (n % 10) (Nat.mod_lt n (by omega))]
    omega

theorem toDigits_inj {j k : Nat}
    (h : (⟨Nat.toDigits 10 j⟩ : String) = ⟨Nat.toDigits 10 k⟩) : j = k := by
  have hd := congrArg String.data h
  simp only at hd
  rw [toDigits_eq_myDigits, toDigits_eq_myDigits] at hd
  have := congrArg digitsVal hd
  rwa [digitsVal_myDigits, digitsVal_myDigits] at this

theorem candName_inj (clean : String) {j k : Nat}
    (h : candName clean j = candName clean k) : j = k := by
  unfold candName at h
  have hd := congrArg String.data h
  simp only [String.data_append] at hd
  have h1 := List.append_cancel_right hd
  have h2 := List.append_cancel_left h1
  exact toDigits_inj (String.ext h2)

theorem fresh_exists (ks : List String) (clean : String) :
    ∃ j, 2 ≤ j ∧ j ≤ 2 + (ks.length + 1) ∧ candName clean j ∉ ks := by
  by_contra hno
  push_neg at hno
  have hnd : ((List.range (ks.length + 2)).map
      (fun i => candName clean (i + 2))).Nodup := by
    refine List.Nodup.map ?_ (List.nodup_range _)
    intro a b hab
    have := candName_inj clean hab
    omega
  have hsub : ((List.range (ks.length + 2)).map
      (fun i => candName clean (i + 2))).toFinset ⊆ ks.toFinset := by
    intro x hx
    simp only [List.mem_toFinset, List.mem_map, List.mem_range] at hx
    obtain ⟨i, hi, rfl⟩ := hx
    rw [List.mem_toFinset]
    exact hno (i + 2) (by omega) (by omega)
  have hcard1 : ((List.range (ks.length + 2)).map
      (fun i => candName clean (i + 2))).toFinset.card = ks.length + 2 := by
    rw [List.toFinset_card_of_nodup hnd]
    simp
  have hcard2 : ks.toFinset.card ≤ ks.length := ks.toFinset_card_le
  have := Finset.card_le_card hsub
  omega

theorem freshFrom_spec (ks : List String) (clean : String) :
    ∀ (fuel k : Nat), (∃ j, k ≤ j ∧ j ≤ k + fuel ∧ candName clean j ∉ ks) →
    ∃ c, k ≤ c ∧ freshFrom ks clean k fuel = candName clean c ∧
      candName clean c ∉ ks ∧
      ∀ j, k ≤ j → j < c → candName clean j ∈ ks := by
  intro fuel
  induction fuel with
  | zero =>
    rintro k ⟨j, hj1, hj2, hj3⟩
    have hjk : j = k := by omega
    subst hjk
    exact ⟨j, le_refl _, rfl, hj3, fun i h1 h2 => absurd h2 (by omega)⟩
  | succ fuel ih =>
    rintro k ⟨j, hj1, hj2, hj3⟩
    by_cases hk : ks.contains (candName clean k) = true
    · have hkm : candName clean k ∈ ks := by simpa using hk
      have hjk : j ≠ k := by
        intro he; subst he; exact hj3 hkm
      obtain ⟨c, hc1, hc2, hc3, hc4⟩ := ih (k + 1) ⟨j, by omega, by omega, hj3⟩
      refine ⟨c, by omega, ?_, hc3, ?_⟩
      · rw [freshFrom, if_pos hk]
        exact hc2
      · intro j2 h1 h2
        by_cases hj2k : j2 = k
        · subst hj2k; exact hkm
        · exact hc4 j2 (by omega) h2
    · refine ⟨k, le_refl _, ?_, by simpa using hk,
        fun i h1 h2 => absurd h2 (by omega)⟩
      rw [freshFrom, if_neg hk]

/-- Witness for C7: the spec's "½" example gives one d4; "3+2" gives three
d8 with modifier 2. -/
theorem claim_C7_hit_dice_witness :
    (subStr "½" "½" || subStr "d4" "½") = true ∧
    (foundryHD "½").1 = "d4" ∧ (foundryHD "½").2.1 = 1 ∧
    (foundryHD "3+2").1 = "d8" ∧ (foundryHD "3+2").2.1 = digitsVal ['3'] ∧
    (foundryHD (("3" : String) ++ ⟨'+' :: ['2']⟩)).2.2 = digitsVal ['2'] := by
  have h := claim_C7_hit_dice
  refine ⟨by decide, (h.2.1 "½" (by decide)).1, (h.2.1 "½" (by decide)).2,
    (h.2.2.1 "3+2" (by decide) '3' [] (by decide)).1,
    (h.2.2.1 "3+2" (by decide) '3' [] (by decide)).2,
    h.2.2.2 "3" ['2'] (by decide) (by decide) (by decide)⟩

/-- Claim C6: when the splitter stores a record whose cleaned name is
unused, the plain name is the key; when the cleaned name collides with an
existing key, the key is the name with the suffix " (c)" for the smallest
counter c ≥ 2 making it unique; and the stored record and all other
entries of the map are unchanged by the collision handling. -/
theorem claim_C6_name_collision (ks : List String) (clean : String) :
    (clean ∉ ks → freshName ks clean = clean) ∧
    (clean ∈ ks → ∃ c, 2 ≤ c ∧ freshName ks clean = candName clean c ∧
      candName clean c ∉ ks ∧
      ∀ j, 2 ≤ j → j < c → candName clean j ∈ ks) ∧
    (∀ (out : List (String × OutMonster)) (v : OutMonster),
      dictGet (dictInsert out (freshName (dictKeys out) clean) v)
          (freshName (dictKeys out) clean) = some v ∧
      ∀ k2, k2 ≠ freshName (dictKeys out) clean →
        dictGet (dictInsert out (freshName (dictKeys out) clean) v) k2 =
          dictGet out k2) := by
  refine ⟨?_, ?_, ?_⟩
  · intro hmem
    unfold freshName
    rw [if_neg (by simpa using hmem)]
  · intro hmem
    unfold freshName
    rw [if_pos (by simpa using hmem)]
    obtain ⟨j, hj1, hj2, hj3⟩ := fresh_exists ks clean
    exact freshFrom_spec ks clean (ks.length + 1) 2 ⟨j, hj1, hj2, hj3⟩
  · intro out v
    exact ⟨dictGet_dictInsert_self out _ v,
      fun k2 hk2 => dictGet_dictInsert_ne out v hk2⟩

theorem str_append_right_ne (s : String) {a b : String} (h : a ≠ b) :
    s ++ a ≠ s ++ b := by
  intro he
  apply h
  apply String.ext
  have hd := congrArg String.data he
  rw [String.data_append, String.data_append] at hd
  exact List.append_cancel_left hd

/-- Claim C5: for an entity whose stats table has header row
["Stat", "Red", "Blue", "Green"] and one data row
["Hit Dice", "2", "3", "4"], the splitter produces exactly three
sub-entities named "(orig) Red", "(orig) Blue", "(orig) Green", each with
the one-row two-column table [["Hit Dice", v]] for its own column (header
row dropped, data row truncated to label and column value).  The
hypotheses state that the cleaning pass leaves these three names intact
(they hold for every name without HTML tags, asterisks or extra spaces). -/
theorem claim_C5_split_completeness (orig : String) (descr : List String)
    (oe : List (String × String)) (hhtml : String)
    (h1 : cleanMonsterName (orig ++ " Red") = orig ++ " Red")
    (h2 : cleanMonsterName (orig ++ " Blue") = orig ++ " Blue")
    (h3 : cleanMonsterName (orig ++ " Green") = orig ++ " Green") :
    processMulti [] orig
        ⟨descr, [⟨[["Stat", "Red", "Blue", "Green"],
                   ["Hit Dice", "2", "3", "4"]], hhtml⟩], oe⟩
        ⟨[["Stat", "Red", "Blue", "Green"], ["Hit Dice", "2", "3", "4"]], hhtml⟩ =
      [(orig ++ " Red",
        ⟨descr, [.created [("Hit Dice", some "2")]], oe, true⟩),
       (orig ++ " Blue",
        ⟨descr, [.created [("Hit Dice", some "3")]], oe, true⟩),
       (orig ++ " Green",
        ⟨descr, [.created [("Hit Dice", some "4")]], oe, true⟩)] := by
  have hneBR : orig ++ " Blue" ≠ orig ++ " Red" :=
    str_append_right_ne orig (by decide)
  have hneGB : orig ++ " Green" ≠ orig ++ " Blue" :=
    str_append_right_ne orig (by decide)
  have hneGR : orig ++ " Green" ≠ orig ++ " Red" :=
    str_append_right_ne orig (by decide)
  have hsafe1 : safeNameOf orig "Red" 0 = orig ++ " Red" := by
    unfold safeNameOf
    rw [if_pos (by decide), show pyStripS "Red" = "Red" from by decide,
      String.append_assoc, show (" " ++ "Red" : String) = " Red" from by decide]
  have hsafe2 : safeNameOf orig "Blue" 1 = orig ++ " Blue" := by
    unfold safeNameOf
    rw [if_pos (by decide), show pyStripS "Blue" = "Blue" from by decide,
      String.append_assoc, show (" " ++ "Blue" : String) = " Blue" from by decide]
  have hsafe3 : safeNameOf orig "Green" 2 = orig ++ " Green" := by
    unfold safeNameOf
    rw [if_pos (by decide), show pyStripS "Green" = "Green" from by decide,
      String.append_assoc, show (" " ++ "Green" : String) = " Green" from by decide]
  have hrec : ∀ ci : Nat,
      splitRecord
        ⟨descr, [⟨[["Stat", "Red", "Blue", "Green"],
                   ["Hit Dice", "2", "3", "4"]], hhtml⟩], oe⟩
        ⟨[["Stat", "Red", "Blue", "Green"], ["Hit Dice", "2", "3", "4"]], hhtml⟩
        ci =
      ⟨descr,
       createIndiv ⟨[["Stat", "Red", "Blue", "Green"],
                     ["Hit Dice", "2", "3", "4"]], hhtml⟩ ci,
       oe, true⟩ := by
    intro ci
    unfold splitRecord
    simp
  have hci : ∀ (html2 : String) (ci : Nat),
      createIndiv ⟨[["Stat", "Red", "Blue", "Green"],
        ["Hit Dice", "2", "3", "4"]], html2⟩ ci =
      createIndiv ⟨[["Stat", "Red", "Blue", "Green"],
        ["Hit Dice", "2", "3", "4"]], ""⟩ ci := by
    intro html2 ci
    unfold createIndiv createIndivRows
    rfl
  unfold processMulti
  rw [show extractColumnHeaders
      ([["Stat", "Red", "Blue", "Green"],
        ["Hit Dice", "2", "3", "4"]].headD []) = ["Red", "Blue", "Green"]
    from by decide]
  rw [if_neg (by decide)]
  rw [splitLoop]
  rw [hsafe1, h1]
  rw [show freshName (dictKeys ([] : List (String × OutMonster)))
      (orig ++ " Red") = orig ++ " Red" from by
    unfold freshName
    rw [if_neg (by simp [dictKeys])]]
  rw [show dictInsert ([] : List (String × OutMonster)) (orig ++ " Red")
      (splitRecord _ _ 1) = [(orig ++ " Red", splitRecord _ _ 1)] from rfl]
  rw [splitLoop]
  rw [hsafe2, h2]
  rw [show freshName (dictKeys [(orig ++ " Red",
      splitRecord ⟨descr, [⟨[["Stat", "Red", "Blue", "Green"],
        ["Hit Dice", "2", "3", "4"]], hhtml⟩], oe⟩
        ⟨[["Stat", "Red", "Blue", "Green"], ["Hit Dice", "2", "3", "4"]],
          hhtml⟩ 1)]) (orig ++ " Blue") = orig ++ " Blue" from by
    unfold freshName
    rw [if_neg (by simp [dictKeys, hneBR])]]
  rw [show ∀ r1 r2, dictInsert [(orig ++ " Red", r1)] (orig ++ " Blue") r2 =
      [(orig ++ " Red", r1), (orig ++ " Blue", r2)] from by
    intro r1 r2
    unfold dictInsert
    rw [if_neg (by simp [Ne.symm hneBR])]
    rfl]
  rw [splitLoop]
  rw [hsafe3, h3]
  rw [show ∀ r1 r2, freshName (dictKeys [(orig ++ " Red", r1),
      (orig ++ " Blue", r2)]) (orig ++ " Green") = orig ++ " Green" from by
    intro r1 r2
    unfold freshName
    rw [if_neg (by simp [dictKeys, hneGR, hneGB])]]
  rw [show ∀ r1 r2 r3, dictInsert [(orig ++ " Red", r1), (orig ++ " Blue", r2)]
      (orig ++ " Green") r3 =
      [(orig ++ " Red", r1), (orig ++ " Blue", r2), (orig ++ " Green", r3)] from by
    intro r1 r2 r3
    unfold dictInsert
    rw [if_neg (by simp [Ne.symm hneGR])]
    unfold dictInsert
    rw [if_neg (by simp [Ne.symm hneGB])]
    rfl]
  rw [splitLoop]
  rw [hrec 1, hrec 2, hrec 3]
  rw [hci hhtml 1, hci hhtml 2, hci hhtml 3]
  rw [show createIndiv ⟨[["Stat", "Red", "Blue", "Green"],
      ["Hit Dice", "2", "3", "4"]], ""⟩ 1 =
      [.created [("Hit Dice", some "2")]] from by decide]
  rw [show createIndiv ⟨[["Stat", "Red", "Blue", "Green"],
      ["Hit Dice", "2", "3", "4"]], ""⟩ 2 =
      [.created [("Hit Dice", some "3")]] from by decide]
  rw [show createIndiv ⟨[["Stat", "Red", "Blue", "Green"],
      ["Hit Dice", "2", "3", "4"]], ""⟩ 3 =
      [.created [("Hit Dice", some "4")]] from by decide]

/-- Witness for C5: the concrete original name "Dragon" (clean, so the
cleaning hypotheses hold by evaluation) splits into the three expected
records. -/
theorem claim_C5_split_completeness_witness :
    processMulti [] "Dragon"
        ⟨["desc"], [⟨[["Stat", "Red", "Blue", "Green"],
                      ["Hit Dice", "2", "3", "4"]], "h"⟩], []⟩
        ⟨[["Stat", "Red", "Blue", "Green"], ["Hit Dice", "2", "3", "4"]], "h"⟩ =
      [("Dragon" ++ " Red",
        ⟨["desc"], [.created [("Hit Dice", some "2")]], [], true⟩),
       ("Dragon" ++ " Blue",
        ⟨["desc"], [.created [("Hit Dice", some "3")]], [], true⟩),
       ("Dragon" ++ " Green",
        ⟨["desc"], [.created [("Hit Dice", some "4")]], [], true⟩)] :=
  claim_C5_split_completeness "Dragon" ["desc"] [] "h"
    (by decide) (by decide) (by decide)

/-- Witness for C6: with "Goblin Chief" already among the keys, the
resolved key carries the smallest free counter (here 2). -/
theorem claim_C6_name_collision_witness :
    "Goblin Chief" ∈ (["Goblin Chief"] : List String) ∧
    (∃ c, 2 ≤ c ∧
      freshName ["Goblin Chief"] "Goblin Chief" = candName "Goblin Chief" c ∧
      candName "Goblin Chief" c ∉ (["Goblin Chief"] : List String) ∧
      ∀ j, 2 ≤ j → j < c →
        candName "Goblin Chief" j ∈ (["Goblin Chief"] : List String)) :=
  ⟨by decide,
   (claim_C6_name_collision ["Goblin Chief"] "Goblin Chief").2.1 (by decide)⟩

end Bfrpg
